import Mathlib

set_option autoImplicit false
set_option maxRecDepth 8192

namespace Clt

/-- Modelled from the spec: the Classified Token type (`NamingCase` in crate
`naming_lib`, which lives outside `src/`); a closed tagged union whose variants
carry the original raw string. The `invalid` variant models the unclassifiable
case that classification never produces on filter survivors. -/
inductive NamingCase where
  | screamingSnake (s : String)
  | snake (s : String)
  | kebab (s : String)
  | camel (s : String)
  | pascal (s : String)
  | invalid (s : String)
  deriving DecidableEq, Repr

/-- Modelled from the spec: `naming_lib::is_screaming_snake` — all characters
uppercase letters, digits, or underscore; contains at least one letter. -/
def is_screaming_snake (w : String) : Bool :=
  w.data.all (fun c => c.isUpper || c.isDigit || c == '_') && w.data.any Char.isUpper

/-- Modelled from the spec: `naming_lib::is_snake` — all characters lowercase
letters, digits, or underscore. -/
def is_snake (w : String) : Bool :=
  w.data.all (fun c => c.isLower || c.isDigit || c == '_')

/-- Modelled from the spec: `naming_lib::is_kebab` — all characters lowercase
letters, digits, or hyphen. -/
def is_kebab (w : String) : Bool :=
  w.data.all (fun c => c.isLower || c.isDigit || c == '-')

/-- Modelled from the spec: `naming_lib::is_camel` — starts with a lowercase
letter; remaining characters are letters or digits only. -/
def is_camel (w : String) : Bool :=
  match w.data with
  | [] => false
  | c :: cs => c.isLower && cs.all (fun d => d.isAlpha || d.isDigit)

/-- Modelled from the spec: `naming_lib::is_pascal` — starts with an uppercase
letter; remaining characters are letters or digits only. -/
def is_pascal (w : String) : Bool :=
  match w.data with
  | [] => false
  | c :: cs => c.isUpper && cs.all (fun d => d.isAlpha || d.isDigit)

/-- Modelled from the spec: `naming_lib::which_case` evaluates the predicates
in the declared precedence order (screaming-snake, snake, kebab, camel, pascal)
and wraps the raw string in the first matching variant. -/
def which_case (w : String) : NamingCase :=
  if is_screaming_snake w then .screamingSnake w
  else if is_snake w then .snake w
  else if is_kebab w then .kebab w
  else if is_camel w then .camel w
  else if is_pascal w then .pascal w
  else .invalid w

/-- Modelled from the spec: the Hungarian-notation rewrite in `naming_lib` —
drop the leading lowercase-letters segment of a camel-shaped token and produce
a Pascal-tagged value holding the stripped string. -/
def from_hungarian_notation (w : String) : NamingCase :=
  NamingCase.pascal (String.mk (w.data.dropWhile Char.isLower))

/-- The payload string carried by a Classified Token (`to_string` on the value
in `naming_lib`): each variant holds the original raw string. -/
def NamingCase.origin : NamingCase → String
  | .screamingSnake s => s
  | .snake s => s
  | .kebab s => s
  | .camel s => s
  | .pascal s => s
  | .invalid s => s

def lowerStr (s : String) : String := String.mk (s.data.map Char.toLower)

def upperStr (s : String) : String := String.mk (s.data.map Char.toUpper)

def capWord (s : String) : String :=
  match s.data with
  | [] => ""
  | c :: cs => String.mk (Char.toUpper c :: cs)

/-- Split a character list on a separator character; a separator at either end
or two adjacent separators yield empty words, as Rust `str::split` does. -/
def splitChar (sep : Char) : List Char → List (List Char)
  | [] => [[]]
  | c :: cs =>
    match splitChar sep cs, c == sep with
    | r, true => [] :: r
    | [], false => [[c]]
    | w :: ws, false => (c :: w) :: ws

/-- Modelled from the spec: splitting a camel- or pascal-shaped string on
uppercase-letter boundaries; every uppercase letter starts a new word. -/
def camelSplit : List Char → List Char → List (List Char)
  | cur, [] => [cur.reverse]
  | cur, c :: cs =>
    if c.isUpper then cur.reverse :: camelSplit [c] cs else camelSplit (c :: cur) cs

def camelWords (s : String) : List String :=
  match s.data with
  | [] => []
  | c :: cs => (camelSplit [c] cs).map String.mk

/-- Modelled from the spec: decompose a Classified Token into its constituent
words using the convention of the source variant, lower-casing every word. -/
def case_words : NamingCase → List String
  | .screamingSnake s => ((splitChar '_' s.data).map String.mk).map lowerStr
  | .snake s => ((splitChar '_' s.data).map String.mk).map lowerStr
  | .kebab s => ((splitChar '-' s.data).map String.mk).map lowerStr
  | .camel s => (camelWords s).map lowerStr
  | .pascal s => (camelWords s).map lowerStr
  | .invalid s => [s]

def joinSep (sep : String) : List String → String
  | [] => ""
  | [w] => w
  | w :: ws => w ++ sep ++ joinSep sep ws

def to_screaming_snake (c : NamingCase) : String := upperStr (joinSep "_" (case_words c))

def to_snake (c : NamingCase) : String := joinSep "_" (case_words c)

def to_kebab (c : NamingCase) : String := joinSep "-" (case_words c)

def to_camel (c : NamingCase) : String :=
  match case_words c with
  | [] => ""
  | w :: ws => w ++ String.join (ws.map capWord)

def to_pascal (c : NamingCase) : String := String.join ((case_words c).map capWord)

/-- The predicate table `Filter::PREDICATES` from `conversion.rs`, pairing each
filter option tag with its case predicate; tag `h` reuses the camel predicate. -/
def PREDICATES : List (String × (String → Bool)) :=
  [("S", is_screaming_snake), ("s", is_snake), ("k", is_kebab),
   ("c", is_camel), ("h", is_camel), ("p", is_pascal)]

/-- Modelled from the spec: the direct renderer table `DIRECT_MAPPERS` (declared
in the `clt_lib` crate root, outside `src/`), mapping each renderable output
Style Tag to the function producing the converted value in that target style. -/
def DIRECT_MAPPERS : List (String × (NamingCase → String)) :=
  [("S", to_screaming_snake), ("s", to_snake), ("k", to_kebab),
   ("c", to_camel), ("p", to_pascal)]

def json_field (name : String) (f : NamingCase → String) (c : NamingCase) : String :=
  "\"" ++ name ++ "\":\"" ++ f c ++ "\""

/-- Modelled from the spec: the JSON renderer table `JSON_MAPPERS` (declared in
the `clt_lib` crate root, outside `src/`), producing key/value fragments whose
field names are the canonical long style names. -/
def JSON_MAPPERS : List (String × (NamingCase → String)) :=
  [("S", json_field "screaming_snake" to_screaming_snake),
   ("s", json_field "snake" to_snake),
   ("k", json_field "kebab" to_kebab),
   ("c", json_field "camel" to_camel),
   ("p", json_field "pascal" to_pascal)]

/-- Rust `Iterator::reduce` with boolean or: `none` on an empty list, matching
the `reduce(|a, b| a || b)` call in `Filter::filter_words_with_options`. -/
def reduceOr : List Bool → Option Bool
  | [] => none
  | b :: bs => some (bs.foldl (fun a x => a || x) b)

/-- Rust `filter` whose closure may panic, modelled in the `Option` monad:
`none` models a panic raised inside the closure. -/
def filterM (p : String → Option Bool) : List String → Option (List String)
  | [] => some []
  | w :: ws => do
    let keep ← p w
    let rest ← filterM p ws
    pure (if keep then w :: rest else rest)

/-- The `Filter` struct from `conversion.rs`: holds the filter option tags of the user. -/
structure Filter where
  options : List String
  deriving Repr

/-- `Filter::has_hungarian_camel_conflict` from `conversion.rs`. -/
def Filter.has_hungarian_camel_conflict (options : List String) : Bool :=
  options.contains "h" && options.contains "c"

/-- The `ConflictingOptions` error message returned by `Filter::new`. -/
def conflictMsg : String :=
  "In option \"--filter\", at most one of the two, hungarian " ++
    "notation (h) and camel case (c) can appear."

/-- `Filter::new` from `conversion.rs`: rejects option lists containing both
`h` and `c`, accepts every other option list. -/
def Filter.new (options : List String) : Except String Filter :=
  if Filter.has_hungarian_camel_conflict options then Except.error conflictMsg
  else Except.ok (Filter.mk options)

/-- The predicate-selection step of `Filter::filter_words_with_options`: the
predicates of the table entries whose tag appears in the options, in table order. -/
def selected_predicates (options : List String) : List (String → Bool) :=
  (PREDICATES.filter (fun pr => options.contains pr.1)).map Prod.snd

/-- `Filter::filter_words_with_options` from `conversion.rs`: keeps the words
on which some selected predicate holds; the `reduce(..).unwrap()` on an empty
selected-predicate list is modelled as `none` (panic). -/
def Filter.filter_words_with_options (f : Filter) (words : List String) :
    Option (List String) :=
  filterM (fun w => reduceOr ((selected_predicates f.options).map (fun p => p w))) words

/-- `Filter::to_naming_cases_from` from `conversion.rs`: filter the words, then
classify each survivor, rerouting camel-shaped words through the Hungarian
rewrite when tag `h` was requested. -/
def Filter.to_naming_cases_from (f : Filter) (words : List String) :
    Option (List NamingCase) := do
  let ws ← f.filter_words_with_options words
  pure (ws.map (fun w =>
    if f.options.contains "h" && is_camel w then from_hungarian_notation w
    else which_case w))

/-- The `Convertor` struct from `conversion.rs`: output option tags plus the
classified tokens to render. -/
structure Convertor where
  options : List String
  cases : List NamingCase

/-- Lookup in a renderer table, as `HashMap::get` keyed by tag. -/
def lookupMapper (mappers : List (String × (NamingCase → String))) (o : String) :
    Option (NamingCase → String) :=
  (mappers.find? (fun pr => pr.1 == o)).map Prod.snd

/-- Collecting fallible lookups, `none` as soon as one lookup misses. -/
def mapOption (f : String → Option (NamingCase → String)) :
    List String → Option (List (NamingCase → String))
  | [] => some []
  | o :: os => do
    let m ← f o
    let rest ← mapOption f os
    pure (m :: rest)

/-- `Convertor::select_mappers_base_on_options` from `conversion.rs`: looks each
output option up in the given renderer table, in option order; the unchecked
`unwrap` on a missing key is modelled as `none` (panic). -/
def Convertor.select_mappers_base_on_options (c : Convertor)
    (mappers : List (String × (NamingCase → String))) :
    Option (List (NamingCase → String)) :=
  mapOption (lookupMapper mappers) c.options

/-- `Convertor::into_lines` from `conversion.rs`. -/
def Convertor.into_lines (c : Convertor) : Option String := do
  let mappers ← c.select_mappers_base_on_options DIRECT_MAPPERS
  pure (joinSep "\n" (c.cases.map (fun case =>
    case.origin ++ " " ++ joinSep " " (mappers.map (fun f => f case)))))

/-- `Convertor::into_json` from `conversion.rs`. -/
def Convertor.into_json (c : Convertor) : Option String := do
  let mappers ← c.select_mappers_base_on_options JSON_MAPPERS
  pure ("\x7b\"result\":[" ++
    joinSep "," (c.cases.map (fun case =>
      "\x7b\"origin\":\"" ++ case.origin ++ "\"," ++
        joinSep "," (mappers.map (fun f => f case)) ++ "\x7d")) ++
    "]\x7d")

/-- `Convertor::into_regex` from `conversion.rs`. -/
def Convertor.into_regex (c : Convertor) : Option String := do
  let mappers ← c.select_mappers_base_on_options DIRECT_MAPPERS
  pure (joinSep "\n" (c.cases.map (fun case =>
    case.origin ++ " " ++ joinSep "|" (mappers.map (fun f => f case)))))

/-- `Convertor::into_regex_json` from `conversion.rs`. -/
def Convertor.into_regex_json (c : Convertor) : Option String := do
  let mappers ← c.select_mappers_base_on_options DIRECT_MAPPERS
  pure ("\x7b\"result\":[" ++
    joinSep "," (c.cases.map (fun case =>
      "\x7b\"origin\":\"" ++ case.origin ++ "\",\"regex\":\"" ++
        joinSep "|" (mappers.map (fun f => f case)) ++ "\"\x7d")) ++
    "]\x7d")

/-- The six valid filter Style Tags of the spec. -/
def validTags : List String := ["S", "s", "k", "c", "h", "p"]

/-- The five renderable output Style Tags of the spec (tag `h` has no renderer). -/
def outputTags : List String := ["S", "s", "k", "c", "p"]

/-- The predicate the spec associates to each filter tag (`h` reuses camel). -/
def tagPred : String → String → Bool
  | "S" => is_screaming_snake
  | "s" => is_snake
  | "k" => is_kebab
  | "c" => is_camel
  | "h" => is_camel
  | "p" => is_pascal
  | _ => fun _ => false

/-- The direct renderer the spec associates to each renderable output tag. -/
def directMapperOf : String → NamingCase → String
  | "S" => to_screaming_snake
  | "s" => to_snake
  | "k" => to_kebab
  | "c" => to_camel
  | "p" => to_pascal
  | _ => fun _ => ""

/-- The JSON renderer the spec associates to each renderable output tag. -/
def jsonMapperOf : String → NamingCase → String
  | "S" => json_field "screaming_snake" to_screaming_snake
  | "s" => json_field "snake" to_snake
  | "k" => json_field "kebab" to_kebab
  | "c" => json_field "camel" to_camel
  | "p" => json_field "pascal" to_pascal
  | _ => fun _ => ""

theorem foldl_or_eq_any (bs : List Bool) (b : Bool) :
    bs.foldl (fun a x => a || x) b = (b || bs.any id) := by
  induction bs generalizing b with
  | nil => simp
  | cons c cs ih => simp [List.foldl_cons, ih, Bool.or_assoc]

theorem reduceOr_eq_any (l : List Bool) (h : l ≠ []) : reduceOr l = some (l.any id) := by
  cases l with
  | nil => exact absurd rfl h
  | cons b bs => simp [reduceOr, foldl_or_eq_any]

theorem reduceOr_nil : reduceOr [] = none := rfl

theorem filterM_some (p : String → Option Bool) (g : String → Bool)
    (hp : ∀ w, p w = some (g w)) (words : List String) :
    filterM p words = some (words.filter g) := by
  induction words with
  | nil => rfl
  | cons w ws ih => simp [filterM, hp w, ih, List.filter_cons]

theorem filterM_none (p : String → Option Bool) (hp : ∀ w, p w = none)
    (words : List String) (h : words ≠ []) : filterM p words = none := by
  cases words with
  | nil => exact absurd rfl h
  | cons w ws => simp [filterM, hp w]

theorem any_map_apply (l : List (String → Bool)) (w : String) :
    (l.map (fun p => p w)).any id = l.any (fun p => p w) := by
  induction l with
  | nil => rfl
  | cons p ps ih => simp [List.any_cons, ih]

example : is_camel "camelCase" = true := by decide

example : which_case "snake_case" = NamingCase.snake "snake_case" := by decide

example : to_pascal (NamingCase.snake "a_a") = "AA" := by decide

example : (Filter.mk ["S", "s", "k", "c", "p"]).filter_words_with_options
    ["SCREAMING_SNAKE", "snake_case", "kebab-case", "camelCase", "PascalCase", "-invalid_"] =
    some ["SCREAMING_SNAKE", "snake_case", "kebab-case", "camelCase", "PascalCase"] := by
  decide

example : (Convertor.mk ["p", "c", "s", "k", "S"] [NamingCase.snake "a_a"]).into_lines =
    some "a_a AA aA a_a a-a A_A" := by decide

theorem selected_predicates_nil : selected_predicates [] = [] := rfl

/-- Claim C1 counterexample: with an empty filter option list and the non-empty
token list `["a"]`, `filter_words_with_options` does not return an empty list;
it hits the `reduce(..).unwrap()` on an empty predicate list, modelled as
`none` (a panic), contradicting the claimed no-panic empty result. -/
theorem c1_counterexample :
    (Filter.mk []).filter_words_with_options ["a"] = none ∧
      ¬ (Filter.mk []).filter_words_with_options ["a"] = some [] := by
  constructor
  · rfl
  · intro h
    exact Option.noConfusion h

/-- Claim C1 (amended): an empty input-token list produces an empty result for
every filter option list, and with an empty filter option list the result is
empty when the token list is empty but is a panic (modelled `none`, from the
`reduce(..).unwrap()` on an empty selected-predicate list) when the token list
is non-empty. -/
theorem c1_empty_behaviour (options words : List String) :
    (Filter.mk options).filter_words_with_options [] = some [] ∧
      (Filter.mk []).filter_words_with_options words =
        (if words.isEmpty then some [] else none) := by
  constructor
  · rfl
  · cases words with
    | nil => rfl
    | cons w ws =>
      have h : (Filter.mk []).filter_words_with_options (w :: ws) = none :=
        filterM_none _ (fun _ => rfl) _ (by simp)
      simp [h]

/-- Claim C2: `Filter::new` fails with the `ConflictingOptions` error exactly
when both `h` and `c` appear in the option list, and accepts every other
option list, returning the filter. -/
theorem filter_new_conflict_iff (options : List String) :
    Filter.new options =
      (if "h" ∈ options ∧ "c" ∈ options then Except.error conflictMsg
       else Except.ok (Filter.mk options)) := by
  by_cases h : "h" ∈ options ∧ "c" ∈ options
  · simp [Filter.new, Filter.has_hungarian_camel_conflict, h,
      List.elem_iff.mpr h.1, List.elem_iff.mpr h.2]
  · rw [if_neg h]
    have hb : Filter.has_hungarian_camel_conflict options = false := by
      by_contra hb
      simp only [Bool.not_eq_false] at hb
      rw [Filter.has_hungarian_camel_conflict, Bool.and_eq_true] at hb
      exact h ⟨List.elem_iff.mp hb.1, List.elem_iff.mp hb.2⟩
    simp [Filter.new, hb]

/-- Claim C8: filtering is idempotent; in the `Option` monad (where `none`
models the panic on an empty selected-predicate list), re-filtering the result
of `filter_words_with_options` changes nothing. -/
theorem filter_words_idempotent (options words : List String) :
    ((Filter.mk options).filter_words_with_options words).bind
        (fun ws => (Filter.mk options).filter_words_with_options ws) =
      (Filter.mk options).filter_words_with_options words := by
  cases hsel : selected_predicates options with
  | nil =>
    cases words with
    | nil =>
      simp [Filter.filter_words_with_options, filterM]
    | cons w ws =>
      have h : (Filter.mk options).filter_words_with_options (w :: ws) = none := by
        apply filterM_none
        · intro x
          simp [hsel, reduceOr_nil]
        · simp
      simp [h]
  | cons f fs =>
    have hp : ∀ w, reduceOr ((selected_predicates options).map (fun p => p w)) =
        some ((selected_predicates options).any (fun p => p w)) := by
      intro w
      rw [reduceOr_eq_any _ (by simp [hsel]), any_map_apply]
    have hs : ∀ ws, (Filter.mk options).filter_words_with_options ws =
        some (ws.filter (fun w => (selected_predicates options).any (fun p => p w))) :=
      filterM_some _ _ hp
    rw [hs words]
    show (Filter.mk options).filter_words_with_options _ = _
    rw [hs]
    simp [List.filter_filter]

theorem selected_any_eq (options : List String)
    (hv : ∀ o ∈ options, o ∈ validTags) (w : String) :
    (selected_predicates options).any (fun p => p w) =
      options.any (fun o => tagPred o w) := by
  apply Bool.coe_iff_coe.mp
  rw [List.any_eq_true, List.any_eq_true]
  constructor
  · rintro ⟨p, hp, hpw⟩
    rcases List.mem_map.mp hp with ⟨pr, hprf, rfl⟩
    rcases List.mem_filter.mp hprf with ⟨hprP, hcont⟩
    have hmem : pr.1 ∈ options := List.elem_iff.mp hcont
    have hPR : pr = ("S", is_screaming_snake) ∨ pr = ("s", is_snake) ∨
        pr = ("k", is_kebab) ∨ pr = ("c", is_camel) ∨ pr = ("h", is_camel) ∨
        pr = ("p", is_pascal) := by simpa [PREDICATES] using hprP
    rcases hPR with rfl | rfl | rfl | rfl | rfl | rfl <;> exact ⟨_, hmem, hpw⟩
  · rintro ⟨o, ho, hto⟩
    have hco : options.contains o = true := List.elem_iff.mpr ho
    have hov : o = "S" ∨ o = "s" ∨ o = "k" ∨ o = "c" ∨ o = "h" ∨ o = "p" := by
      simpa [validTags] using hv o ho
    rcases hov with rfl | rfl | rfl | rfl | rfl | rfl
    · exact ⟨is_screaming_snake, List.mem_map.mpr ⟨("S", is_screaming_snake),
        List.mem_filter.mpr ⟨by simp [PREDICATES], hco⟩, rfl⟩, hto⟩
    · exact ⟨is_snake, List.mem_map.mpr ⟨("s", is_snake),
        List.mem_filter.mpr ⟨by simp [PREDICATES], hco⟩, rfl⟩, hto⟩
    · exact ⟨is_kebab, List.mem_map.mpr ⟨("k", is_kebab),
        List.mem_filter.mpr ⟨by simp [PREDICATES], hco⟩, rfl⟩, hto⟩
    · exact ⟨is_camel, List.mem_map.mpr ⟨("c", is_camel),
        List.mem_filter.mpr ⟨by simp [PREDICATES], hco⟩, rfl⟩, hto⟩
    · exact ⟨is_camel, List.mem_map.mpr ⟨("h", is_camel),
        List.mem_filter.mpr ⟨by simp [PREDICATES], hco⟩, rfl⟩, hto⟩
    · exact ⟨is_pascal, List.mem_map.mpr ⟨("p", is_pascal),
        List.mem_filter.mpr ⟨by simp [PREDICATES], hco⟩, rfl⟩, hto⟩

theorem selected_ne_nil (options : List String) (o : String) (ho : o ∈ options)
    (hov : o ∈ validTags) : selected_predicates options ≠ [] := by
  have hco : options.contains o = true := List.elem_iff.mpr ho
  have hov6 : o = "S" ∨ o = "s" ∨ o = "k" ∨ o = "c" ∨ o = "h" ∨ o = "p" := by
    simpa [validTags] using hov
  rcases hov6 with rfl | rfl | rfl | rfl | rfl | rfl
  · exact List.ne_nil_of_mem (List.mem_map.mpr ⟨("S", is_screaming_snake),
      List.mem_filter.mpr ⟨by simp [PREDICATES], hco⟩, rfl⟩)
  · exact List.ne_nil_of_mem (List.mem_map.mpr ⟨("s", is_snake),
      List.mem_filter.mpr ⟨by simp [PREDICATES], hco⟩, rfl⟩)
  · exact List.ne_nil_of_mem (List.mem_map.mpr ⟨("k", is_kebab),
      List.mem_filter.mpr ⟨by simp [PREDICATES], hco⟩, rfl⟩)
  · exact List.ne_nil_of_mem (List.mem_map.mpr ⟨("c", is_camel),
      List.mem_filter.mpr ⟨by simp [PREDICATES], hco⟩, rfl⟩)
  · exact List.ne_nil_of_mem (List.mem_map.mpr ⟨("h", is_camel),
      List.mem_filter.mpr ⟨by simp [PREDICATES], hco⟩, rfl⟩)
  · exact List.ne_nil_of_mem (List.mem_map.mpr ⟨("p", is_pascal),
      List.mem_filter.mpr ⟨by simp [PREDICATES], hco⟩, rfl⟩)

/-- Claim C3: for every non-empty filter option list of valid Style Tags,
`filter_words_with_options` keeps exactly the tokens satisfying at least one
predicate whose tag appears in the option list (tag `h` using the camel
predicate), as a stable, order-preserving filter of the input. -/
theorem c3_filter_keeps_iff (options words : List String) (hne : options ≠ [])
    (hv : ∀ o ∈ options, o ∈ validTags) :
    (Filter.mk options).filter_words_with_options words =
      some (words.filter (fun w => options.any (fun o => tagPred o w))) := by
  obtain ⟨o, os, rfl⟩ : ∃ o os, options = o :: os := by
    cases options with
    | nil => exact absurd rfl hne
    | cons o os => exact ⟨o, os, rfl⟩
  have hsel : selected_predicates (o :: os) ≠ [] :=
    selected_ne_nil _ o (List.mem_cons_self o os) (hv o (List.mem_cons_self o os))
  have hp : ∀ w, reduceOr ((selected_predicates (o :: os)).map (fun p => p w)) =
      some ((o :: os).any (fun x => tagPred x w)) := by
    intro w
    rw [reduceOr_eq_any _ (fun hmap => hsel (List.map_eq_nil_iff.mp hmap)),
      any_map_apply, selected_any_eq _ hv w]
  exact filterM_some _ _ hp words

/-- Claim C3 witness: the spec scenario — filtering the six tokens with options
`["S","s","k","c","p"]` keeps the first five in original order and drops the
invalid one. -/
theorem c3_witness :
    (Filter.mk ["S", "s", "k", "c", "p"]).filter_words_with_options
        ["SCREAMING_SNAKE", "snake_case", "kebab-case", "camelCase",
         "PascalCase", "-invalid_"] =
      some ["SCREAMING_SNAKE", "snake_case", "kebab-case", "camelCase",
        "PascalCase"] := by
  rw [c3_filter_keeps_iff _ _ (by decide) (by decide)]
  decide

/-- Claim C4: when tag `h` is among the filter options, `to_naming_cases_from`
classifies every filter-surviving camel-shaped token as a Pascal-tagged token
holding the string with its leading lowercase segment stripped (not the
original string), and classifies every other surviving token ordinarily. -/
theorem c4_hungarian_reinterpretation (options words ws : List String)
    (hh : "h" ∈ options)
    (hf : (Filter.mk options).filter_words_with_options words = some ws) :
    (Filter.mk options).to_naming_cases_from words =
      some (ws.map (fun w =>
        if is_camel w then
          NamingCase.pascal (String.mk (w.data.dropWhile Char.isLower))
        else which_case w)) := by
  have hc : (Filter.mk options).options.contains "h" = true := List.elem_iff.mpr hh
  rw [Filter.to_naming_cases_from, hf]
  simp [hc, hh, from_hungarian_notation]

/-- Claim C4 witness: the spec scenario — the token `"intPageSize"` with filter
options `["h"]` is classified as Pascal with payload `"PageSize"`. -/
theorem c4_witness :
    (Filter.mk ["h"]).to_naming_cases_from ["intPageSize"] =
      some [NamingCase.pascal "PageSize"] := by
  rw [c4_hungarian_reinterpretation ["h"] ["intPageSize"] ["intPageSize"]
    (by decide) (by decide)]
  decide

theorem option_bind_some {α β : Type} (a : α) (f : α → Option β) :
    (Bind.bind (some a) f) = f a := rfl

theorem lookup_direct_eq (o : String) (ho : o ∈ outputTags) :
    lookupMapper DIRECT_MAPPERS o = some (directMapperOf o) := by
  have h5 : o = "S" ∨ o = "s" ∨ o = "k" ∨ o = "c" ∨ o = "p" := by
    simpa [outputTags] using ho
  rcases h5 with rfl | rfl | rfl | rfl | rfl <;> rfl

theorem lookup_json_eq (o : String) (ho : o ∈ outputTags) :
    lookupMapper JSON_MAPPERS o = some (jsonMapperOf o) := by
  have h5 : o = "S" ∨ o = "s" ∨ o = "k" ∨ o = "c" ∨ o = "p" := by
    simpa [outputTags] using ho
  rcases h5 with rfl | rfl | rfl | rfl | rfl <;> rfl

theorem mapOption_map (f : String → Option (NamingCase → String))
    (g : String → NamingCase → String) (options : List String)
    (hf : ∀ o ∈ options, f o = some (g o)) :
    mapOption f options = some (options.map g) := by
  induction options with
  | nil => rfl
  | cons o os ih =>
    simp [mapOption, hf o (List.mem_cons_self o os),
      ih (fun x hx => hf x (List.mem_cons_of_mem o hx))]

theorem select_direct_eq (options : List String) (cases : List NamingCase)
    (hv : ∀ o ∈ options, o ∈ outputTags) :
    (Convertor.mk options cases).select_mappers_base_on_options DIRECT_MAPPERS =
      some (options.map directMapperOf) :=
  mapOption_map _ _ _ (fun o ho => lookup_direct_eq o (hv o ho))

theorem select_json_eq (options : List String) (cases : List NamingCase)
    (hv : ∀ o ∈ options, o ∈ outputTags) :
    (Convertor.mk options cases).select_mappers_base_on_options JSON_MAPPERS =
      some (options.map jsonMapperOf) :=
  mapOption_map _ _ _ (fun o ho => lookup_json_eq o (hv o ho))

/-- Claim C5: for every output option list of renderable Style Tags, the
selected renderer lists of both tables are exactly the caller-supplied option
list mapped through the table, in caller order, repeats included. -/
theorem c5_option_order (options : List String) (cases : List NamingCase)
    (hv : ∀ o ∈ options, o ∈ outputTags) :
    (Convertor.mk options cases).select_mappers_base_on_options DIRECT_MAPPERS =
        some (options.map directMapperOf) ∧
      (Convertor.mk options cases).select_mappers_base_on_options JSON_MAPPERS =
        some (options.map jsonMapperOf) :=
  ⟨select_direct_eq options cases hv, select_json_eq options cases hv⟩

/-- Claim C5 witness: with output tags `["p","c","s","k","S"]` the selected
mappers are the pascal mapper first and the screaming-snake mapper last,
mirroring the order the caller gave. -/
theorem c5_witness :
    (Convertor.mk ["p", "c", "s", "k", "S"]
        [NamingCase.snake "a_a"]).select_mappers_base_on_options DIRECT_MAPPERS =
        some (["p", "c", "s", "k", "S"].map directMapperOf) ∧
      (Convertor.mk ["p", "c", "s", "k", "S"]
          [NamingCase.snake "a_a"]).select_mappers_base_on_options JSON_MAPPERS =
        some (["p", "c", "s", "k", "S"].map jsonMapperOf) :=
  c5_option_order ["p", "c", "s", "k", "S"] [NamingCase.snake "a_a"] (by decide)

/-- Claim C6: for renderable output tags, `into_lines` yields one line per
token of the form origin, space, then the renderings space-joined in output-tag
order; lines are newline-joined with no trailing newline. -/
theorem c6_into_lines (options : List String) (cases : List NamingCase)
    (hv : ∀ o ∈ options, o ∈ outputTags) :
    (Convertor.mk options cases).into_lines =
      some (joinSep "\n" (cases.map (fun case =>
        case.origin ++ " " ++
          joinSep " " (options.map (fun o => directMapperOf o case))))) := by
  rw [Convertor.into_lines, select_direct_eq options cases hv, option_bind_some]
  simp only [List.map_map]
  rfl

/-- Claim C6 witness: the spec scenario — the Snake token from `"a_a"` with
output options `["p","c","s","k","S"]` renders to exactly
`"a_a AA aA a_a a-a A_A"`. -/
theorem c6_witness :
    (Convertor.mk ["p", "c", "s", "k", "S"] [NamingCase.snake "a_a"]).into_lines =
      some "a_a AA aA a_a a-a A_A" := by
  rw [c6_into_lines _ _ (by decide)]
  decide

/-- Claim C7: for renderable output tags, `into_json` yields the result object
whose array elements hold the origin field followed by the JSON-field
renderings comma-joined in output-tag order, with no trailing separators. -/
theorem c7_into_json (options : List String) (cases : List NamingCase)
    (hv : ∀ o ∈ options, o ∈ outputTags) :
    (Convertor.mk options cases).into_json =
      some ("\x7b\"result\":[" ++
        joinSep "," (cases.map (fun case =>
          "\x7b\"origin\":\"" ++ case.origin ++ "\"," ++
            joinSep "," (options.map (fun o => jsonMapperOf o case)) ++ "\x7d")) ++
        "]\x7d") := by
  rw [Convertor.into_json, select_json_eq options cases hv, option_bind_some]
  simp only [List.map_map]
  rfl

/-- Claim C7 witness: the spec scenario — the classified tokens from
`["snake_case","kebab-case"]` with output options `["S","s","k","c","p"]`
produce exactly the JSON string of the spec. -/
theorem c7_witness :
    (Convertor.mk ["S", "s", "k", "c", "p"]
        (["snake_case", "kebab-case"].map which_case)).into_json =
      some ("\x7b\"result\":[\x7b\"origin\":\"snake_case\",\"screaming_snake\":\"SNAKE_CASE\",\"snake\":\"snake_case\",\"kebab\":\"snake-case\",\"camel\":\"snakeCase\",\"pascal\":\"SnakeCase\"\x7d,\x7b\"origin\":\"kebab-case\",\"screaming_snake\":\"KEBAB_CASE\",\"snake\":\"kebab_case\",\"kebab\":\"kebab-case\",\"camel\":\"kebabCase\",\"pascal\":\"KebabCase\"\x7d]\x7d") := by
  rw [c7_into_json _ _ (by decide)]
  decide

theorem lookupMapper_none (mappers : List (String × (NamingCase → String)))
    (o : String) (ho : o ∉ mappers.map Prod.fst) : lookupMapper mappers o = none := by
  induction mappers with
  | nil => rfl
  | cons pr prs ih =>
    rw [List.map_cons, List.mem_cons] at ho
    push_neg at ho
    have h1 : (pr.1 == o) = false := beq_eq_false_iff_ne.mpr (Ne.symm ho.1)
    have h2 : lookupMapper prs o = none := ih ho.2
    rw [lookupMapper, List.find?_cons_of_neg _ (by simp [h1])]
    rw [lookupMapper] at h2
    exact h2

theorem mapOption_none (f : String → Option (NamingCase → String))
    (options : List String) (o : String) (ho : o ∈ options) (hf : f o = none) :
    mapOption f options = none := by
  induction options with
  | nil => exact absurd ho (List.not_mem_nil o)
  | cons a os ih =>
    rcases List.mem_cons.mp ho with rfl | h
    · simp [mapOption, hf]
    · cases hfa : f a with
      | none => simp [mapOption, hfa]
      | some m => simp [mapOption, hfa, ih h]

theorem direct_keys : DIRECT_MAPPERS.map Prod.fst = outputTags := rfl

theorem json_keys : JSON_MAPPERS.map Prod.fst = outputTags := rfl

/-- Claim C9: if the output option list contains a tag outside the renderer
key set of the renderer tables (in particular the tag `h`), every output method hits the
unchecked table lookup, modelled as `none` (a panic), instead of returning an
error value or skipping the tag. -/
theorem c9_missing_tag_panics (options : List String) (cases : List NamingCase)
    (o : String) (h1 : o ∈ options) (h2 : o ∉ outputTags) :
    (Convertor.mk options cases).into_lines = none ∧
      (Convertor.mk options cases).into_json = none ∧
      (Convertor.mk options cases).into_regex = none ∧
      (Convertor.mk options cases).into_regex_json = none := by
  have hd : lookupMapper DIRECT_MAPPERS o = none :=
    lookupMapper_none _ _ (by rw [direct_keys]; exact h2)
  have hj : lookupMapper JSON_MAPPERS o = none :=
    lookupMapper_none _ _ (by rw [json_keys]; exact h2)
  have hsd : (Convertor.mk options cases).select_mappers_base_on_options
      DIRECT_MAPPERS = none := mapOption_none _ _ _ h1 hd
  have hsj : (Convertor.mk options cases).select_mappers_base_on_options
      JSON_MAPPERS = none := mapOption_none _ _ _ h1 hj
  refine ⟨?_, ?_, ?_, ?_⟩ <;>
    simp [Convertor.into_lines, Convertor.into_json, Convertor.into_regex,
      Convertor.into_regex_json, hsd, hsj]

/-- Claim C9 witness: output tag `h` with one Snake token makes all four output
methods panic (modelled `none`). -/
theorem c9_witness :
    (Convertor.mk ["h"] [NamingCase.snake "a_a"]).into_lines = none ∧
      (Convertor.mk ["h"] [NamingCase.snake "a_a"]).into_json = none ∧
      (Convertor.mk ["h"] [NamingCase.snake "a_a"]).into_regex = none ∧
      (Convertor.mk ["h"] [NamingCase.snake "a_a"]).into_regex_json = none :=
  c9_missing_tag_panics ["h"] [NamingCase.snake "a_a"] "h" (by decide) (by decide)

/-- Claim C10: with an empty output option list and a non-empty token list,
`into_lines` and `into_regex` emit for each token the original string followed
by a single trailing space; the separator space is emitted even with zero
renderings. -/
theorem c10_empty_output_options (cases : List NamingCase) (_h : cases ≠ []) :
    (Convertor.mk [] cases).into_lines =
        some (joinSep "\n" (cases.map (fun case => case.origin ++ " "))) ∧
      (Convertor.mk [] cases).into_regex =
        some (joinSep "\n" (cases.map (fun case => case.origin ++ " "))) := by
  constructor <;>
    simp [Convertor.into_lines, Convertor.into_regex,
      Convertor.select_mappers_base_on_options, mapOption, joinSep]

/-- Claim C10 witness: a single Snake token `"a_a"` with no output options
yields the line `"a_a "` (trailing space) from both `into_lines` and
`into_regex`. -/
theorem c10_witness :
    (Convertor.mk [] [NamingCase.snake "a_a"]).into_lines = some "a_a " ∧
      (Convertor.mk [] [NamingCase.snake "a_a"]).into_regex = some "a_a " := by
  have h := c10_empty_output_options [NamingCase.snake "a_a"] (by simp)
  exact ⟨h.1.trans (by decide), h.2.trans (by decide)⟩

end Clt
